import Mathlib

/-!
Verification of the blue-pill accelerometer demo (src/main.rs).

The program samples a 3-axis accelerometer once per tick, computes
the scalar magnitude `abs_mag = ((x*x + y*y + z*z).sqrt() - 1.0).abs()`
in single-precision (f32) arithmetic, folds it into a running peak via
`if abs_mag > peak then peak = abs_mag`, and renders the current and peak
values as fixed-width, fixed-precision text lines.

The development below contains an executable model of IEEE-754 binary32
(f32) arithmetic built on integer arithmetic: a float is a NaN, a signed
infinity, or a signed dyadic `m * 2 ^ e`; every arithmetic operation
rounds its exact result to nearest, ties to even, exactly as f32
arithmetic does.  On top of it the relevant fragment of `main` is
embedded: the magnitude expression, the peak update, and the text
formatting with its compile-time constants.
-/

/-- Power of two as an integer. -/
def p2 (k : ℕ) : ℤ := ((2 ^ k : ℕ) : ℤ)

/-- An IEEE-754 binary32 value: a quiet NaN, a signed infinity, or a signed
finite value whose magnitude is `m * 2 ^ e`.  The sign flag is `true` for
negative.  Canonical finite values have either `2^23 ≤ m < 2^24` with
`-149 ≤ e ≤ 104` (normal numbers) or `m < 2^23` with `e = -149` (subnormal
numbers); zeros are stored as `fin s 0 0`.  All operations below produce
canonical values from canonical arguments. -/
inductive F32 where
  | nan : F32
  | inf : Bool → F32
  | fin : Bool → ℤ → ℕ → F32
deriving DecidableEq

namespace F32

/-- Is this value a NaN? -/
def isNan : F32 → Bool
  | .nan => true
  | _ => false

/-- The sign bit (true = negative); NaN is given a clear sign bit. -/
def signBit : F32 → Bool
  | .nan => false
  | .inf s => s
  | .fin s _ _ => s

/-- IEEE-754 negation: flips the sign bit. -/
def neg : F32 → F32
  | .nan => .nan
  | .inf s => .inf (!s)
  | .fin s e m => .fin (!s) e m

/-- Absolute value, as f32::abs: clears the sign bit. -/
def abs : F32 → F32
  | .nan => .nan
  | .inf _ => .inf false
  | .fin _ e m => .fin false e m

/-- Signed integer significand. -/
def sVal (s : Bool) (m : ℕ) : ℤ := if s then -(m : ℤ) else (m : ℤ)

/-- IEEE-754 comparison, as Rust's PartialOrd on f32: `none` when either
operand is NaN; the two zeros compare equal. -/
def cmp : F32 → F32 → Option Ordering
  | .nan, _ => none
  | _, .nan => none
  | .inf s, .inf t =>
      some (if s = t then Ordering.eq else if s then Ordering.lt else Ordering.gt)
  | .inf s, .fin _ _ _ => some (if s then Ordering.lt else Ordering.gt)
  | .fin _ _ _, .inf t => some (if t then Ordering.gt else Ordering.lt)
  | .fin s e m, .fin t f k =>
      let x := sVal s m * p2 (e - min e f).toNat
      let y := sVal t k * p2 (f - min e f).toNat
      some (if x < y then Ordering.lt else if y < x then Ordering.gt else Ordering.eq)

/-- Rust `<` on f32. -/
def lt (a b : F32) : Bool := decide (cmp a b = some Ordering.lt)

/-- Rust `<=` on f32. -/
def le (a b : F32) : Bool := lt a b || decide (cmp a b = some Ordering.eq)

/-- Rust `>` on f32. -/
def gt (a b : F32) : Bool := lt b a

/-- Rust `>=` on f32. -/
def ge (a b : F32) : Bool := le b a

/-- Rust `==` on f32 (false on NaN, true on `0.0 == -0.0`). -/
def beqF (a b : F32) : Bool := decide (cmp a b = some Ordering.eq)

/-- Positive zero, the f32 literal 0.0. -/
def zeroPos : F32 := .fin false 0 0

/-- Negative zero. -/
def zeroNeg : F32 := .fin true 0 0

/-- The f32 literal 1.0. -/
def oneF : F32 := .fin false (-23) (2 ^ 23)

/-- The f32 value 8.0, the bound of the configured ±8g sensor range. -/
def eightF : F32 := .fin false (-20) (2 ^ 23)

/-- Build a finite nonnegative float from significand and exponent, handling
overflow to infinity and canonicalizing zero. -/
def mkPos (e : ℤ) (n : ℕ) : F32 :=
  if 104 < e then .inf false
  else if n = 0 then .fin false 0 0
  else .fin false e n

/-- Round-to-nearest-even of `n * 2 ^ d` to an integer, for `0 ≤ n`. -/
def rneShift (n : ℤ) (d : ℤ) : ℤ :=
  if 0 ≤ d then n * p2 d.toNat
  else
    let D := p2 (-d).toNat
    let q := n / D
    let r := n % D
    if D < 2 * r then q + 1
    else if 2 * r < D then q
    else if q % 2 = 0 then q else q + 1

/-- Is `a / b < c * 2 ^ t` (for naturals `a b c` with `b > 0`)? -/
def fracLt (a b : ℕ) (t : ℤ) (c : ℕ) : Bool :=
  if 0 ≤ t then (a : ℤ) < (c : ℤ) * p2 t.toNat * b
  else (a : ℤ) * p2 (-t).toNat < (c : ℤ) * b

/-- Raise the binade exponent while `a / b ≥ 2^24 * 2^t`. -/
def upExpF : ℕ → ℕ → ℕ → ℤ → ℤ
  | 0, _, _, t => t
  | fuel + 1, a, b, t => if fracLt a b t (2 ^ 24) then t else upExpF fuel a b (t + 1)

/-- Lower the binade exponent while `a / b < 2^23 * 2^t`, stopping at the
subnormal exponent -149. -/
def dnExpF : ℕ → ℕ → ℕ → ℤ → ℤ
  | 0, _, _, t => t
  | fuel + 1, a, b, t =>
      if t ≤ -149 then t
      else if fracLt a b t (2 ^ 23) then dnExpF fuel a b (t - 1) else t

/-- Final step of rounding: renormalize a carry out of the significand range
and assemble the nonnegative value. -/
def finishRound (esig nsig : ℤ) : F32 :=
  if nsig = p2 24 then mkPos (esig + 1) (2 ^ 23) else mkPos esig nsig.toNat

/-- Core of rounding `a / b` (positive) to 24 significand bits: the binade
exponent and the round-to-nearest-even significand (possibly `2^24` on a carry
out of the significand range). -/
def roundCore (a b : ℕ) : ℤ × ℤ :=
  let t1 := upExpF 400 a b 0
  let esig := dnExpF 200 a b t1
  let N : ℤ := (a : ℤ) * p2 (-esig).toNat
  let B : ℤ := (b : ℤ) * p2 esig.toNat
  let q := N / B
  let r := N % B
  (esig, if B < 2 * r then q + 1 else if 2 * r < B then q else if q % 2 = 0 then q else q + 1)

/-- Round the positive rational `a / b` to the nearest binary32 value, ties to
even, overflowing to infinity: IEEE-754 round-to-nearest of an exact positive
result. -/
def roundPosFrac (a b : ℕ) : F32 :=
  finishRound (roundCore a b).1 (roundCore a b).2

/-- Nearest binary32 to the rational `a / b` (`b ≠ 0`): the f32 value denoted
by a decimal literal `a/b` in the Rust source. -/
def ofFrac (a : ℤ) (b : ℕ) : F32 :=
  if a < 0 then neg (roundPosFrac (-a).toNat b)
  else if a = 0 then zeroPos
  else roundPosFrac a.toNat b

end F32

/-- A dyadic rational `n * 2 ^ e`: the exact value of a product or sum of
finite binary32 values. -/
structure Dy where
  n : ℤ
  e : ℤ
deriving DecidableEq

namespace F32

/-- Exact value of a finite float as a dyadic rational. -/
def toDy (s : Bool) (e : ℤ) (m : ℕ) : Dy := ⟨sVal s m, e⟩

/-- Exact sum of two dyadic rationals. -/
def dyAdd (a b : Dy) : Dy :=
  ⟨a.n * p2 (a.e - min a.e b.e).toNat + b.n * p2 (b.e - min a.e b.e).toNat, min a.e b.e⟩

/-- Round a nonnegative dyadic rational to the nearest binary32 (ties to
even). -/
def roundMag (d : Dy) : F32 :=
  if d.n ≤ 0 then zeroPos
  else if 0 ≤ d.e then roundPosFrac (d.n * p2 d.e.toNat).toNat 1
  else roundPosFrac d.n.toNat (2 ^ (-d.e).toNat)

/-- IEEE-754 binary32 addition (round to nearest, ties to even): the semantics
of `+` on f32 in the source.  A zero sum of nonzero operands is +0; the sum of
two zeros is -0 only when both are -0. -/
def add (a b : F32) : F32 :=
  match a, b with
  | .nan, _ => .nan
  | _, .nan => .nan
  | .inf s, .inf t => if s = t then .inf s else .nan
  | .inf s, .fin _ _ _ => .inf s
  | .fin _ _ _, .inf t => .inf t
  | .fin s e m, .fin t f k =>
      let d := dyAdd (toDy s e m) (toDy t f k)
      if d.n = 0 then (if s && t then zeroNeg else zeroPos)
      else if d.n < 0 then neg (roundMag ⟨-d.n, d.e⟩)
      else roundMag d

/-- Attach a sign to a nonnegative rounded magnitude. -/
def applySign (s : Bool) (v : F32) : F32 := if s then neg v else v

/-- IEEE-754 binary32 multiplication (round to nearest, ties to even): the
semantics of `*` on f32 in the source. -/
def mul (a b : F32) : F32 :=
  match a, b with
  | .nan, _ => .nan
  | _, .nan => .nan
  | .inf s, .inf t => .inf (xor s t)
  | .inf s, .fin t _ k => if k = 0 then .nan else .inf (xor s t)
  | .fin s _ m, .inf t => if m = 0 then .nan else .inf (xor s t)
  | .fin s e m, .fin t f k => applySign (xor s t) (roundMag ⟨(m : ℤ) * (k : ℤ), e + f⟩)

/-- IEEE-754 binary32 subtraction: the semantics of `-` on f32 in the
source. -/
def sub (a b : F32) : F32 := add a (neg b)

/-- Bisection step for the integer square root. -/
def isqrtGo (t : ℕ) : ℕ → ℕ → ℕ → ℕ
  | 0, lo, _ => lo
  | fuel + 1, lo, hi =>
      let mid := (lo + hi) / 2
      if mid = lo then lo
      else if mid * mid ≤ t then isqrtGo t fuel mid hi
      else isqrtGo t fuel lo mid

/-- Integer square root (floor), exact for `t < 2 ^ 50`. -/
def isqrt (t : ℕ) : ℕ := isqrtGo t 60 0 (2 ^ 25)

/-- Scale `m * 2 ^ e` by factors of 4 until `m ≥ 2 ^ 46`, preserving the value
and the parity of `e`. -/
def sqrtScale : ℕ → ℕ → ℤ → ℕ × ℤ
  | 0, m, e => (m, e)
  | fuel + 1, m, e => if m < 2 ^ 46 then sqrtScale fuel (4 * m) (e - 2) else (m, e)

/-- Modelled from the spec: the square root called at `(x*x + y*y + z*z).sqrt()`
comes from the external `micromath::F32Ext` crate, whose source is not part of
this repository; the spec fixes its numeric semantics as "square root via
standard floating-point sqrt", i.e. the correctly rounded (round to nearest)
IEEE-754 binary32 square root, which is what this definition computes.  Exact
rounding ties cannot occur for square roots of binary32 values.  Domain
behavior follows IEEE-754: `sqrt` of NaN or of a negative number is NaN, and
`sqrt (±0) = ±0`. -/
def sqrt (a : F32) : F32 :=
  match a with
  | .nan => .nan
  | .inf s => if s then .nan else .inf false
  | .fin s e m =>
      if m = 0 then .fin s 0 0
      else if s then .nan
      else
        let start := if e % 2 = 0 then (m, e) else (2 * m, e - 1)
        let p := sqrtScale 64 start.1 start.2
        let n0 := isqrt p.1
        let n := if (n0 * n0 + n0 : ℕ) < p.1 then n0 + 1 else n0
        if n = 2 ^ 24 then .fin false (p.2 / 2 + 1) (2 ^ 23) else .fin false (p.2 / 2) n

end F32

/-!  Embedding of the program fragment of `main` that the claims are about
(src/main.rs, lines 44-45 and 117-143). -/

/-- A normalized accelerometer reading: the three f32 axis components returned
by `lis3dh.accel_norm()` and destructured as `(x, y, z)` at line 121. -/
structure Sample where
  x : F32
  y : F32
  z : F32

/-- Line 122 of main.rs:
`let abs_mag = ((x * x + y * y + z * z).sqrt() - 1.0).abs();`
with Rust's left-associated sum `(x*x + y*y) + z*z`. -/
def abs_mag (x y z : F32) : F32 :=
  F32.abs
    (F32.sub
      (F32.sqrt (F32.add (F32.add (F32.mul x x) (F32.mul y y)) (F32.mul z z)))
      F32.oneF)

/-- The per-tick magnitude of a sample, as computed by the code. -/
def magnitude (s : Sample) : F32 := abs_mag s.x s.y s.z

/-- Modelled from the spec (section 4.3): `magnitude(s) = abs(sqrt(s.x² + s.y² +
s.z²) - 1.0)` in single-precision floating point with the standard
floating-point sqrt.  This is the specification-side formula, to be compared
with the code-side `abs_mag`. -/
def magnitudeSpec (s : Sample) : F32 :=
  F32.abs
    (F32.sub
      (F32.sqrt (F32.add (F32.add (F32.mul s.x s.x) (F32.mul s.y s.y)) (F32.mul s.z s.z)))
      F32.oneF)

/-- Lines 123-125 of main.rs: `if abs_mag > peak then peak = abs_mag`, the
conditional peak update of one tick. -/
def updatePeak (peak m : F32) : F32 := if F32.gt m peak then m else peak

/-- Modelled from the spec (section 4.3): `peak' = max(peak, magnitude(s))`,
where `max` on floats is Rust's `f32::max` (returns the other operand when one
is NaN, otherwise the greater). -/
def f32Max (a b : F32) : F32 :=
  if F32.isNan a then b else if F32.isNan b then a else if F32.lt a b then b else a

/-- The `peak` values taken after each tick when the loop (starting from
`let mut peak = 0.0;`, line 117) processes the given samples; index 0 is the
initial peak. -/
def peakTrace (ss : List Sample) : List F32 :=
  List.scanl (fun p s => updatePeak p (magnitude s)) F32.zeroPos ss

/-- The `peak` value after the loop has processed the given samples, starting
from the initial `0.0`. -/
def peakAfter (ss : List Sample) : F32 :=
  List.foldl (fun p s => updatePeak p (magnitude s)) F32.zeroPos ss

/-- Line 44 of main.rs: `const MAX_LENGTH: usize = 5;`, the display field
width. -/
def MAX_LENGTH : ℕ := 5

/-- Line 45 of main.rs: `const DEC_FIGS: usize = 2;`, the number of decimal
digits. -/
def DEC_FIGS : ℕ := 2

/-- Left-pad a digit string with zeros up to the requested number of decimal
digits. -/
def padZeros (dec : ℕ) (s : String) : String :=
  if s.length < dec then String.mk (List.replicate (dec - s.length) '0') ++ s else s

/-- Rust's fixed-precision formatting of an f32 value with `dec` decimal
digits (`dec > 0`): the exact binary value is rounded to `dec` decimal digits
(round to nearest, ties to even) and printed with a sign for negative values,
as Rust's formatter does. -/
def fmtFixed (dec : ℕ) (v : F32) : String :=
  match v with
  | .nan => "NaN"
  | .inf s => if s then "-inf" else "inf"
  | .fin s e m =>
      let n := (F32.rneShift ((m : ℤ) * (10 ^ dec : ℕ)) e).toNat
      let ip := n / 10 ^ dec
      let fp := n % 10 ^ dec
      (if s then "-" else "") ++ Nat.repr ip ++ "." ++ padZeros dec (Nat.repr fp)

/-- Right-alignment of a string in a field of `w` characters, as Rust's
format alignment does: pad on the left with spaces when shorter, never
truncate. -/
def padLeft (w : ℕ) (s : String) : String :=
  if s.length < w then String.mk (List.replicate (w - s.length) ' ') ++ s else s

/-- Lines 131-136 of main.rs: the `cur_text` string, built by formatting
`abs_mag` right-aligned in a `MAX_LENGTH`-wide field with `DEC_FIGS` decimal
digits after the label. -/
def cur_text (v : F32) : String := "Cur: " ++ padLeft MAX_LENGTH (fmtFixed DEC_FIGS v)

/-- Lines 138-143 of main.rs: the `peak_text` string, identical formatting
with the label for the peak value. -/
def peak_text (v : F32) : String := "Max: " ++ padLeft MAX_LENGTH (fmtFixed DEC_FIGS v)

/-! Helper lemmas about the comparison order. -/

namespace F32

lemma p2_nonneg (k : ℕ) : 0 ≤ p2 k := Int.natCast_nonneg _

lemma cmp_nan_right (a : F32) : cmp a .nan = none := by cases a <;> rfl

lemma not_nan_of_le {a b : F32} (h : le a b = true) : isNan b = false := by
  cases b with
  | nan => simp [le, lt, cmp_nan_right] at h
  | inf s => rfl
  | fin s e m => rfl

lemma le_refl_of_not_nan {a : F32} (h : isNan a = false) : le a a = true := by
  cases a with
  | nan => simp [isNan] at h
  | inf s => cases s <;> rfl
  | fin s e m => simp [le, lt, cmp]

lemma lt_iff {a b : F32} : lt a b = true ↔ cmp a b = some Ordering.lt := by
  simp [lt]

lemma not_nan_of_lt {a b : F32} (h : lt a b = true) : isNan b = false := by
  cases b with
  | nan => simp [lt, cmp_nan_right] at h
  | inf s => rfl
  | fin s e m => rfl

lemma le_of_not_lt {a b : F32} (ha : isNan a = false) (hb : isNan b = false)
    (h : lt a b = false) : le b a = true := by
  cases a with
  | nan => simp [isNan] at ha
  | inf s =>
    cases b with
    | nan => simp [isNan] at hb
    | inf t => cases s <;> cases t <;> revert h <;> decide
    | fin t f k => cases s <;> simp_all [lt, le, cmp]
  | fin s e m =>
    cases b with
    | nan => simp [isNan] at hb
    | inf t => cases t <;> simp_all [lt, le, cmp]
    | fin t f k =>
      simp only [lt, le, cmp, min_comm f e] at h ⊢
      by_cases h1 : sVal s m * p2 (e - min e f).toNat < sVal t k * p2 (f - min e f).toNat
      · simp [h1] at h
      · by_cases h2 : sVal t k * p2 (f - min e f).toNat < sVal s m * p2 (e - min e f).toNat
        · simp [h1, h2]
        · simp [h1, h2]

end F32

/-! Lemmas about the peak update. -/

lemma updatePeak_le {p : F32} (m : F32) (h : F32.isNan p = false) :
    F32.le p (updatePeak p m) = true := by
  by_cases hg : F32.gt m p = true
  · simp only [updatePeak, hg, if_true]
    have hlt : F32.cmp p m = some Ordering.lt := F32.lt_iff.mp hg
    simp [F32.le, F32.lt, hlt]
  · simp only [updatePeak, hg, if_false]
    exact F32.le_refl_of_not_nan h

lemma not_nan_updatePeak {p : F32} (m : F32) (h : F32.isNan p = false) :
    F32.isNan (updatePeak p m) = false := by
  by_cases hg : F32.gt m p = true
  · simp only [updatePeak, hg, if_true]
    exact F32.not_nan_of_lt hg
  · simp only [updatePeak, hg, if_false]
    exact h

lemma updatePeak_eq_max {p : F32} (m : F32) (h : F32.isNan p = false) :
    updatePeak p m = f32Max p m := by
  by_cases hm : F32.isNan m = true
  · cases m with
    | nan => simp [updatePeak, f32Max, F32.gt, F32.lt, F32.cmp_nan_right, h]
    | inf t => simp [F32.isNan] at hm
    | fin t f k => simp [F32.isNan] at hm
  · have hm2 : F32.isNan m = false := by simpa using hm
    by_cases hl : F32.lt p m = true
    · simp [updatePeak, f32Max, F32.gt, h, hm2, hl]
    · have hl2 : F32.lt p m = false := by simpa using hl
      simp [updatePeak, f32Max, F32.gt, h, hm2, hl2]

lemma chain_peakStep (ss : List Sample) :
    ∀ p : F32, F32.isNan p = false →
      List.Chain' (fun a b => F32.le a b = true)
        (List.scanl (fun q s => updatePeak q (magnitude s)) p ss) := by
  induction ss with
  | nil =>
    intro p hp
    simp only [List.scanl_nil]
    exact List.chain'_singleton p
  | cons s ss ih =>
    intro p hp
    rw [List.scanl_cons, List.singleton_append]
    apply List.Chain'.cons'
    · exact ih _ (not_nan_updatePeak _ hp)
    · intro w hw
      cases ss with
      | nil =>
        simp only [List.scanl_nil, List.head?_cons, Option.mem_def, Option.some.injEq] at hw
        subst hw
        exact updatePeak_le _ hp
      | cons s2 ss2 =>
        rw [List.scanl_cons, List.singleton_append] at hw
        simp only [List.head?_cons, Option.mem_def, Option.some.injEq] at hw
        subst hw
        exact updatePeak_le _ hp

lemma foldl_peak_not_nan (ss : List Sample) :
    ∀ p : F32, F32.isNan p = false →
      F32.isNan (List.foldl (fun q s => updatePeak q (magnitude s)) p ss) = false := by
  induction ss with
  | nil => intro p hp; simpa using hp
  | cons s ss ih => intro p hp; exact ih _ (not_nan_updatePeak _ hp)

/-! Shape lemmas: the arithmetic operations on non-NaN, nonnegative values
produce non-NaN, nonnegative values. -/

namespace F32

lemma isNan_mkPos (e : ℤ) (n : ℕ) : isNan (mkPos e n) = false := by
  unfold mkPos; split_ifs <;> rfl

lemma signBit_mkPos (e : ℤ) (n : ℕ) : signBit (mkPos e n) = false := by
  unfold mkPos; split_ifs <;> rfl

lemma isNan_finishRound (e n : ℤ) : isNan (finishRound e n) = false := by
  unfold finishRound; split_ifs <;> apply isNan_mkPos

lemma signBit_finishRound (e n : ℤ) : signBit (finishRound e n) = false := by
  unfold finishRound; split_ifs <;> apply signBit_mkPos

lemma isNan_roundPosFrac (a b : ℕ) : isNan (roundPosFrac a b) = false :=
  isNan_finishRound _ _

lemma signBit_roundPosFrac (a b : ℕ) : signBit (roundPosFrac a b) = false :=
  signBit_finishRound _ _

lemma isNan_roundMag (d : Dy) : isNan (roundMag d) = false := by
  unfold roundMag
  split_ifs with h1 h2
  · rfl
  · exact isNan_roundPosFrac _ _
  · exact isNan_roundPosFrac _ _

lemma signBit_roundMag (d : Dy) : signBit (roundMag d) = false := by
  unfold roundMag
  split_ifs with h1 h2
  · rfl
  · exact signBit_roundPosFrac _ _
  · exact signBit_roundPosFrac _ _

lemma isNan_neg (v : F32) : isNan (neg v) = isNan v := by cases v <;> rfl

lemma isNan_mul_self {x : F32} (h : isNan x = false) : isNan (mul x x) = false := by
  cases x with
  | nan => simp [isNan] at h
  | inf s => rfl
  | fin s e m => simp [mul, Bool.xor_self, applySign, isNan_roundMag]

lemma signBit_mul_self {x : F32} (h : isNan x = false) : signBit (mul x x) = false := by
  cases x with
  | nan => simp [isNan] at h
  | inf s => simp [mul, signBit, Bool.xor_self]
  | fin s e m => simp [mul, Bool.xor_self, applySign, signBit_roundMag]

lemma add_shape {a b : F32} (ha : isNan a = false) (hsa : signBit a = false)
    (hb : isNan b = false) (hsb : signBit b = false) :
    isNan (add a b) = false ∧ signBit (add a b) = false := by
  cases a with
  | nan => simp [isNan] at ha
  | inf s =>
    simp only [signBit] at hsa
    subst hsa
    cases b with
    | nan => simp [isNan] at hb
    | inf t =>
      simp only [signBit] at hsb
      subst hsb
      exact ⟨rfl, rfl⟩
    | fin t f k => exact ⟨rfl, rfl⟩
  | fin s e m =>
    simp only [signBit] at hsa
    subst hsa
    cases b with
    | nan => simp [isNan] at hb
    | inf t =>
      simp only [signBit] at hsb
      subst hsb
      exact ⟨rfl, rfl⟩
    | fin t f k =>
      simp only [signBit] at hsb
      subst hsb
      have h1 : (0:ℤ) ≤ (m:ℤ) * p2 (e - min e f).toNat :=
        mul_nonneg (Int.natCast_nonneg m) (p2_nonneg _)
      have h2 : (0:ℤ) ≤ (k:ℤ) * p2 (f - min e f).toNat :=
        mul_nonneg (Int.natCast_nonneg k) (p2_nonneg _)
      rcases eq_or_lt_of_le (add_nonneg h1 h2) with hz | hpos
      · simp [add, dyAdd, toDy, sVal, ← hz, zeroPos, isNan, signBit]
      · have hne : (m:ℤ) * p2 (e - min e f).toNat + (k:ℤ) * p2 (f - min e f).toNat ≠ 0 :=
          hpos.ne'
        have hnl : ¬((m:ℤ) * p2 (e - min e f).toNat + (k:ℤ) * p2 (f - min e f).toNat < 0) :=
          not_lt.mpr (le_of_lt hpos)
        simp [add, dyAdd, toDy, sVal, hne, hnl, isNan_roundMag, signBit_roundMag]

lemma sqrt_shape {a : F32} (ha : isNan a = false) (hs : signBit a = false) :
    isNan (sqrt a) = false ∧ signBit (sqrt a) = false := by
  cases a with
  | nan => simp [isNan] at ha
  | inf s =>
    simp only [signBit] at hs
    subst hs
    exact ⟨rfl, rfl⟩
  | fin s e m =>
    simp only [signBit] at hs
    subst hs
    simp only [sqrt]
    split_ifs <;> first | exact ⟨rfl, rfl⟩ | simp_all

lemma isNan_add_fin {a : F32} (t : Bool) (f : ℤ) (k : ℕ) (ha : isNan a = false) :
    isNan (add a (.fin t f k)) = false := by
  cases a with
  | nan => simp [isNan] at ha
  | inf s => rfl
  | fin s e m =>
    simp only [add]
    split_ifs <;> first
      | rfl
      | (rw [isNan_neg]; exact isNan_roundMag _)
      | exact isNan_roundMag _

lemma le_zero_abs {a : F32} (h : isNan a = false) : le zeroPos (abs a) = true := by
  cases a with
  | nan => simp [isNan] at h
  | inf s => rfl
  | fin s e m =>
    have hy : (0:ℤ) ≤ (m:ℤ) * p2 (e - min 0 e).toNat :=
      mul_nonneg (Int.natCast_nonneg m) (p2_nonneg _)
    simp only [abs, zeroPos, le, lt, cmp, sVal, if_false, Nat.cast_zero, zero_mul]
    rcases lt_or_eq_of_le hy with hpos | hzero
    · simp [hpos]
    · simp [← hzero]

end F32

/-! Commutativity of the floating-point addition, and reflexivity of the
floating-point equality on non-NaN values. -/

namespace F32

lemma dyAdd_comm (a b : Dy) : dyAdd a b = dyAdd b a := by
  unfold dyAdd
  rw [min_comm b.e a.e, add_comm]

lemma addF_comm (a b : F32) : add a b = add b a := by
  cases a with
  | nan => cases b <;> rfl
  | inf s =>
    cases b with
    | nan => rfl
    | inf t => cases s <;> cases t <;> rfl
    | fin t f k => rfl
  | fin s e m =>
    cases b with
    | nan => rfl
    | inf t => rfl
    | fin t f k =>
      simp only [add, dyAdd_comm (toDy s e m) (toDy t f k), Bool.and_comm]

lemma beqF_refl {a : F32} (h : isNan a = false) : beqF a a = true := by
  cases a with
  | nan => simp [isNan] at h
  | inf s => cases s <;> rfl
  | fin s e m => simp [beqF, cmp]

end F32

/-! The claims. -/

/-- Claim C1: for every Sample s = (x, y, z) of single-precision floats, the
magnitude computed each tick (the `abs_mag` expression of line 122) equals
abs(sqrt(x*x + y*y + z*z) - 1.0) evaluated in single-precision floating point
with the standard floating-point sqrt (the spec formula `magnitudeSpec`). -/
theorem c1_magnitude_matches_spec (s : Sample) : abs_mag s.x s.y s.z = magnitudeSpec s := rfl

/-- Claim C2: on every tick, for every (reachable, hence non-NaN) prior peak
value p and every magnitude m, the conditional update `if abs_mag > peak`
computes exactly max(p, m), where max is the floating-point maximum. -/
theorem c2_update_computes_max (p m : F32) (h : F32.isNan p = false) :
    updatePeak p m = f32Max p m :=
  updatePeak_eq_max m h

/-- Witness for C2 at the concrete peak 0.3 and a NaN magnitude. -/
theorem c2_update_computes_max_witness :
    F32.isNan (F32.ofFrac 3 10) = false ∧
      updatePeak (F32.ofFrac 3 10) F32.nan = f32Max (F32.ofFrac 3 10) F32.nan :=
  ⟨by decide, c2_update_computes_max (F32.ofFrac 3 10) F32.nan (by decide)⟩

/-- Claim C3: for every sequence of Samples fed to the loop starting from the
initial peak 0.0, the sequence of peak values is non-decreasing: each adjacent
pair of the peak trace satisfies peak[i] <= peak[i+1] (in the floating-point
order), so no operation ever resets the peak. -/
theorem c3_peak_nondecreasing (ss : List Sample) :
    List.Chain' (fun a b => F32.le a b = true) (peakTrace ss) :=
  chain_peakStep ss F32.zeroPos rfl

/-- Counterexample to claim C4 as stated: on a tick whose sample has a NaN
axis reading the computed magnitude is NaN, the update leaves the peak at 0.0,
and `Peak >= Magnitude` is false for that tick (NaN compares false). -/
theorem c4_peak_ge_magnitude_counterexample :
    F32.ge (updatePeak F32.zeroPos (magnitude ⟨F32.nan, F32.zeroPos, F32.zeroPos⟩))
      (magnitude ⟨F32.nan, F32.zeroPos, F32.zeroPos⟩) = false := by decide

/-- Claim C4, amended: immediately after the peak update on any tick whose
magnitude is not NaN (and from any non-NaN prior peak — the reachable peaks
are never NaN), Peak >= Magnitude holds for that tick's sample. -/
theorem c4_peak_ge_magnitude_amended (p : F32) (s : Sample)
    (hp : F32.isNan p = false) (hm : F32.isNan (magnitude s) = false) :
    F32.ge (updatePeak p (magnitude s)) (magnitude s) = true := by
  by_cases hg : F32.gt (magnitude s) p = true
  · simp only [updatePeak, hg, if_true]
    exact F32.le_refl_of_not_nan hm
  · have hg2 : F32.lt p (magnitude s) = false := by simpa [F32.gt] using hg
    simp only [updatePeak, hg, if_false]
    exact F32.le_of_not_lt hp hm hg2

/-- Witness for the amended C4 at peak 0.3 and the sample (0, 0, 1.5). -/
theorem c4_peak_ge_magnitude_amended_witness :
    F32.isNan (F32.ofFrac 3 10) = false ∧
      F32.isNan (magnitude ⟨F32.zeroPos, F32.zeroPos, F32.ofFrac 3 2⟩) = false ∧
      F32.ge
        (updatePeak (F32.ofFrac 3 10) (magnitude ⟨F32.zeroPos, F32.zeroPos, F32.ofFrac 3 2⟩))
        (magnitude ⟨F32.zeroPos, F32.zeroPos, F32.ofFrac 3 2⟩) = true :=
  ⟨by decide, by decide,
    c4_peak_ge_magnitude_amended (F32.ofFrac 3 10) ⟨F32.zeroPos, F32.zeroPos, F32.ofFrac 3 2⟩
      (by decide) (by decide)⟩

/-- Claim C5: with field width 5 and 2 decimal digits (the compile-time
defaults MAX_LENGTH and DEC_FIGS), formatting the current magnitude 1.2345
(i.e. the f32 nearest to 1.2345) produces exactly the string "Cur:  1.23". -/
theorem c5_format_current_default : cur_text (F32.ofFrac 12345 10000) = "Cur:  1.23" := by
  decide

/-- Claim C6: for the sample (0, 0, 1.5) on a tick whose prior peak is 0.3,
the computed magnitude is 0.5, the updated peak is 0.5, and the two formatted
strings of the tick are exactly "Cur:  0.50" and "Max:  0.50". -/
theorem c6_end_to_end_scenario :
    magnitude ⟨F32.zeroPos, F32.zeroPos, F32.ofFrac 3 2⟩ = F32.ofFrac 1 2 ∧
      updatePeak (F32.ofFrac 3 10) (magnitude ⟨F32.zeroPos, F32.zeroPos, F32.ofFrac 3 2⟩) =
        F32.ofFrac 1 2 ∧
      cur_text (magnitude ⟨F32.zeroPos, F32.zeroPos, F32.ofFrac 3 2⟩) = "Cur:  0.50" ∧
      peak_text
        (updatePeak (F32.ofFrac 3 10) (magnitude ⟨F32.zeroPos, F32.zeroPos, F32.ofFrac 3 2⟩)) =
        "Max:  0.50" := by
  refine ⟨by decide, by decide, by decide, by decide⟩

/-- Claim C7: for the all-zero sample (x=0, y=0, z=0), the computed magnitude
equals 1.0 (sqrt 0 = 0, 0 - 1.0 = -1.0, abs gives 1.0). -/
theorem c7_zero_sample_magnitude_one :
    abs_mag F32.zeroPos F32.zeroPos F32.zeroPos = F32.oneF := by decide

/-- Claim C8: for every Sample whose components all lie in [-8, 8] (in the
floating-point order, which excludes NaN components), the computed magnitude
is >= 0. -/
theorem c8_magnitude_nonneg (x y z : F32)
    (hx1 : F32.le (F32.neg F32.eightF) x = true) (hx2 : F32.le x F32.eightF = true)
    (hy1 : F32.le (F32.neg F32.eightF) y = true) (hy2 : F32.le y F32.eightF = true)
    (hz1 : F32.le (F32.neg F32.eightF) z = true) (hz2 : F32.le z F32.eightF = true) :
    F32.ge (abs_mag x y z) F32.zeroPos = true := by
  have hx : F32.isNan x = false := F32.not_nan_of_le hx1
  have hy : F32.isNan y = false := F32.not_nan_of_le hy1
  have hz : F32.isNan z = false := F32.not_nan_of_le hz1
  have hxx := F32.add_shape (F32.isNan_mul_self hx) (F32.signBit_mul_self hx)
    (F32.isNan_mul_self hy) (F32.signBit_mul_self hy)
  have hsum := F32.add_shape hxx.1 hxx.2 (F32.isNan_mul_self hz) (F32.signBit_mul_self hz)
  have hsq := F32.sqrt_shape hsum.1 hsum.2
  have hsub : F32.isNan
      (F32.sub (F32.sqrt (F32.add (F32.add (F32.mul x x) (F32.mul y y)) (F32.mul z z)))
        F32.oneF) = false :=
    F32.isNan_add_fin true (-23) (2 ^ 23) hsq.1
  exact F32.le_zero_abs hsub

/-- Witness for C8 at the sample (0, 0, 1.5). -/
theorem c8_magnitude_nonneg_witness :
    F32.le (F32.neg F32.eightF) F32.zeroPos = true ∧
      F32.le F32.zeroPos F32.eightF = true ∧
      F32.le (F32.neg F32.eightF) (F32.ofFrac 3 2) = true ∧
      F32.le (F32.ofFrac 3 2) F32.eightF = true ∧
      F32.ge (abs_mag F32.zeroPos F32.zeroPos (F32.ofFrac 3 2)) F32.zeroPos = true :=
  ⟨by decide, by decide, by decide, by decide,
    c8_magnitude_nonneg F32.zeroPos F32.zeroPos (F32.ofFrac 3 2)
      (by decide) (by decide) (by decide) (by decide) (by decide) (by decide)⟩

/-- Counterexample to claim C9 as stated: the magnitude is not invariant under
the cyclic permutation (x, y, z) -> (y, z, x).  At x = 11.828125, y = 7.75,
z = 32768 the two left-associated floating-point sums round differently
(2^30 + 256 versus 2^30 + 128), so the magnitudes differ (32767.00390625
versus 32767.0) and the floating-point equality is false. -/
theorem c9_permutation_counterexample :
    F32.beqF
      (abs_mag (F32.ofFrac 11828125 1000000) (F32.ofFrac 775 100) (F32.ofFrac 32768 1))
      (abs_mag (F32.ofFrac 775 100) (F32.ofFrac 32768 1) (F32.ofFrac 11828125 1000000)) =
      false := by decide

/-- Claim C9, amended: the magnitude is invariant under swapping the two axes
that are added first — for all x, y, z whose magnitude is not NaN,
magnitude((x,y,z)) == magnitude((y,x,z)) — because floating-point addition is
commutative; invariance under the cyclic permutation (y,z,x) fails in general
because floating-point addition is not associative. -/
theorem c9_swap_invariance_amended (x y z : F32)
    (h : F32.isNan (abs_mag x y z) = false) :
    F32.beqF (abs_mag x y z) (abs_mag y x z) = true := by
  have hxy : abs_mag y x z = abs_mag x y z := by
    unfold abs_mag
    rw [F32.addF_comm (F32.mul y y) (F32.mul x x)]
  rw [hxy]
  exact F32.beqF_refl h

/-- Witness for the amended C9 at the sample (0, 0, 1.5). -/
theorem c9_swap_invariance_amended_witness :
    F32.isNan (abs_mag F32.zeroPos F32.zeroPos (F32.ofFrac 3 2)) = false ∧
      F32.beqF (abs_mag F32.zeroPos F32.zeroPos (F32.ofFrac 3 2))
        (abs_mag F32.zeroPos F32.zeroPos (F32.ofFrac 3 2)) = true :=
  ⟨by decide,
    c9_swap_invariance_amended F32.zeroPos F32.zeroPos (F32.ofFrac 3 2) (by decide)⟩

/-- Claim C10: if the computed magnitude on a tick is NaN (for example because
a sensor axis reading is NaN), the peak is left unchanged by that tick's
update, because the strict greater-than comparison with NaN is false; and
consequently, starting from the initial peak 0.0, the peak value is never
NaN. -/
theorem c10_nan_never_pollutes_peak :
    (∀ p m : F32, F32.isNan m = true → updatePeak p m = p) ∧
      (∀ ss : List Sample, F32.isNan (peakAfter ss) = false) := by
  constructor
  · intro p m hm
    cases m with
    | nan => simp [updatePeak, F32.gt, F32.lt, F32.cmp_nan_right]
    | inf t => simp [F32.isNan] at hm
    | fin t f k => simp [F32.isNan] at hm
  · intro ss
    exact foldl_peak_not_nan ss F32.zeroPos rfl

/-- Witness for C10: a NaN magnitude (from a NaN axis reading) leaves the
peak 0.3 unchanged, and the peak after a NaN-magnitude tick is not NaN. -/
theorem c10_nan_never_pollutes_peak_witness :
    updatePeak (F32.ofFrac 3 10) (magnitude ⟨F32.nan, F32.zeroPos, F32.zeroPos⟩) =
        F32.ofFrac 3 10 ∧
      F32.isNan (peakAfter [⟨F32.nan, F32.zeroPos, F32.zeroPos⟩]) = false :=
  ⟨c10_nan_never_pollutes_peak.1 (F32.ofFrac 3 10)
      (magnitude ⟨F32.nan, F32.zeroPos, F32.zeroPos⟩) (by decide),
    c10_nan_never_pollutes_peak.2 [⟨F32.nan, F32.zeroPos, F32.zeroPos⟩]⟩
